import Mathlib

/-!
# Verification of the evm_mlir bytecode-to-MLIR lowering core

A shallow embedding of the evm_mlir repository (GopherJ/evm_mlir):

* `src/syscall.rs` — the runtime host (`SyscallContext`, `ExitStatusCode`,
  `Log`, the syscall implementations) is embedded directly, field by field.
* `src/codegen/operations.rs` — each per-opcode emitter is embedded as the
  runtime semantics of the IR it emits: an `execOp` step function over a
  small machine state (stack of typed IR values, gas register, host context).
* `src/utils.rs` — the stack ABI and the revert block.

Helpers that the repository imports from modules not present here
(`constants.rs`, parts of `utils.rs`, `codegen/context.rs`) are modelled
from the specification and marked `Modelled from the spec:` in their doc
comments.

Machine integers are modelled as `Nat` with explicit `% 2^w` where the IR
operation wraps; i256 stack slots carry their IR bit-width in `MValue` so
that the width actually pushed by an emitter is observable.
-/

namespace EvmMlir

/-! ## Byte-level helpers

The emitted IR moves 256-bit words through byte-addressable memory with
`llvm.store`/`llvm.load` plus `llvm.intr_bswap` on little-endian hosts.
We model a little-endian host: a store of an iN value lays down its
little-endian bytes, a load reassembles them. -/

/-- The `n` little-endian base-256 digits of `v` (the bytes an
`llvm.store` of an `8*n`-bit value writes on a little-endian host). -/
def natToLeBytes : Nat → Nat → List Nat
  | 0, _ => []
  | n + 1, v => v % 256 :: natToLeBytes n (v / 256)

/-- Reassemble a little-endian byte list into a natural number (the value
an `llvm.load` reads on a little-endian host). -/
def leBytesToNat : List Nat → Nat
  | [] => 0
  | b :: bs => b + 256 * leBytesToNat bs

/-- `llvm.intr_bswap` on an i256 value: reverse its 32 bytes. -/
def bswap256 (v : Nat) : Nat :=
  leBytesToNat (natToLeBytes 32 v).reverse

/-- Big-endian interpretation of a byte list (EVM word order). -/
def beBytesToNat (l : List Nat) : Nat :=
  leBytesToNat l.reverse

theorem natToLeBytes_length (n v : Nat) : (natToLeBytes n v).length = n := by
  induction n generalizing v with
  | zero => rfl
  | succ n ih => simp [natToLeBytes, ih]

theorem natToLeBytes_lt (n v : Nat) : ∀ b ∈ natToLeBytes n v, b < 256 := by
  induction n generalizing v with
  | zero => intro b hb; simp [natToLeBytes] at hb
  | succ n ih =>
    intro b hb
    simp only [natToLeBytes, List.mem_cons] at hb
    rcases hb with h | h
    · exact h ▸ Nat.mod_lt _ (by norm_num)
    · exact ih _ b h

theorem leBytesToNat_natToLeBytes (n v : Nat) :
    leBytesToNat (natToLeBytes n v) = v % 256 ^ n := by
  induction n generalizing v with
  | zero => simp [natToLeBytes, leBytesToNat, Nat.mod_one]
  | succ n ih =>
    simp only [natToLeBytes, leBytesToNat, ih]
    rw [pow_succ, mul_comm (256 ^ n) 256, Nat.mod_mul]

theorem natToLeBytes_leBytesToNat (l : List Nat) (hb : ∀ b ∈ l, b < 256) :
    natToLeBytes l.length (leBytesToNat l) = l := by
  induction l with
  | nil => rfl
  | cons b bs ih =>
    have hblt : b < 256 := hb b (List.mem_cons_self b bs)
    simp only [List.length_cons, natToLeBytes, leBytesToNat]
    have h1 : (b + 256 * leBytesToNat bs) % 256 = b := by
      rw [Nat.add_mul_mod_self_left, Nat.mod_eq_of_lt hblt]
    have h2 : (b + 256 * leBytesToNat bs) / 256 = leBytesToNat bs := by
      rw [Nat.add_mul_div_left _ _ (by norm_num : (0 : Nat) < 256),
        Nat.div_eq_of_lt hblt, Nat.zero_add]
    rw [h1, h2, ih fun x hx => hb x (List.mem_cons_of_mem _ hx)]

theorem leBytesToNat_lt (l : List Nat) (hb : ∀ b ∈ l, b < 256) :
    leBytesToNat l < 256 ^ l.length := by
  induction l with
  | nil => simp [leBytesToNat]
  | cons b bs ih =>
    have hblt : b < 256 := hb b (List.mem_cons_self b bs)
    have hrec := ih fun x hx => hb x (List.mem_cons_of_mem _ hx)
    simp only [leBytesToNat, List.length_cons, pow_succ]
    calc b + 256 * leBytesToNat bs < 256 + 256 * leBytesToNat bs := by omega
    _ = 256 * (leBytesToNat bs + 1) := by ring
    _ ≤ 256 * 256 ^ bs.length := by
        exact Nat.mul_le_mul_left _ (Nat.succ_le_of_lt hrec)
    _ = 256 ^ bs.length * 256 := by ring

theorem bswap256_lt (v : Nat) : bswap256 v < 2 ^ 256 := by
  have h := leBytesToNat_lt (natToLeBytes 32 v).reverse
    (by intro b hb; exact natToLeBytes_lt 32 v b (List.mem_reverse.mp hb))
  simpa [bswap256, natToLeBytes_length] using h

theorem bswap256_bswap256 (v : Nat) (hv : v < 2 ^ 256) :
    bswap256 (bswap256 v) = v := by
  have hlen : (natToLeBytes 32 v).reverse.length = 32 := by
    simp [natToLeBytes_length]
  have hb : ∀ b ∈ (natToLeBytes 32 v).reverse, b < 256 := by
    intro b hb; exact natToLeBytes_lt 32 v b (List.mem_reverse.mp hb)
  have h1 : natToLeBytes 32 (bswap256 v) = (natToLeBytes 32 v).reverse := by
    have := natToLeBytes_leBytesToNat (natToLeBytes 32 v).reverse hb
    rwa [hlen] at this
  have h256 : (256 : Nat) ^ 32 = 2 ^ 256 := by norm_num
  calc bswap256 (bswap256 v)
      = leBytesToNat (natToLeBytes 32 v).reverse.reverse := by
        rw [bswap256, h1]
    _ = leBytesToNat (natToLeBytes 32 v) := by rw [List.reverse_reverse]
    _ = v := by rw [leBytesToNat_natToLeBytes, h256, Nat.mod_eq_of_lt hv]

/-! ## `src/syscall.rs` — the runtime host -/

/-- `U256` from `syscall.rs`: a 16-byte-aligned pair of 128-bit limbs,
passed by pointer in the log syscalls. -/
structure U256 where
  lo : Nat
  hi : Nat
deriving Repr, DecidableEq

/-- The host (little-endian) reads a 256-bit topic slot as `{lo, hi}`:
`lo` is the low 128 bits, `hi` the high 128 bits. -/
def toU256 (v : Nat) : U256 :=
  ⟨v % 2 ^ 128, v / 2 ^ 128 % 2 ^ 128⟩

/-- `ExitStatusCode` from `syscall.rs`: discriminants 0..4. -/
inductive ExitStatusCode where
  | Return
  | Stop
  | Revert
  | Error
  | Default
deriving Repr, DecidableEq

/-- `ExitStatusCode::to_u8`: the enum discriminant
(`Return = 0`, the rest assigned consecutively). -/
def ExitStatusCode.toU8 : ExitStatusCode → Nat
  | .Return => 0
  | .Stop => 1
  | .Revert => 2
  | .Error => 3
  | .Default => 4

/-- `ExitStatusCode::from_u8`: chained guards comparing `value` against
each variant's `to_u8`, wildcard to `Default`. -/
def ExitStatusCode.fromU8 (value : Nat) : ExitStatusCode :=
  if value = ExitStatusCode.Return.toU8 then .Return
  else if value = ExitStatusCode.Stop.toU8 then .Stop
  else if value = ExitStatusCode.Revert.toU8 then .Revert
  else if value = ExitStatusCode.Error.toU8 then .Error
  else .Default

/-- `Log` from `syscall.rs`. -/
structure Log where
  topics : List U256
  data : List Nat
deriving Repr, DecidableEq

/-- `ExecutionResult` from `syscall.rs`. -/
inductive ExecutionResult where
  | Success (return_data : List Nat) (gas_remaining : Nat) (logs : List Log)
  | Revert (return_data : List Nat) (gas_remaining : Nat)
  | Halt
deriving Repr, DecidableEq

/-- `SyscallContext` from `syscall.rs`. `calldata` stands for
`env.tx.calldata` (the `Env` type lives in `env.rs`, outside the core;
the syscalls only read the calldata byte slice from it). -/
structure SyscallContext where
  memory : List Nat
  returnData : Option (Nat × Nat)
  gasRemaining : Option Nat
  exitStatus : Option ExitStatusCode
  calldata : List Nat
  logs : List Log
deriving Repr, DecidableEq

namespace SyscallContext

/-- `SyscallContext::return_values`: slice `memory[offset..offset+size]`
with `(offset, size) = return_data.unwrap_or((0, 0))`.
Rust indexing panics when `offset + size > memory.len()`; here the slice
clamps, and theorems about it carry the in-bounds side condition. -/
def returnValues (ctx : SyscallContext) : List Nat :=
  let p := ctx.returnData.getD (0, 0)
  (ctx.memory.drop p.1).take p.2

/-- `SyscallContext::get_result`. -/
def getResult (ctx : SyscallContext) : ExecutionResult :=
  let gasRemaining := ctx.gasRemaining.getD 0
  let exitStatus := ctx.exitStatus.getD .Default
  match exitStatus with
  | .Return | .Stop => .Success ctx.returnValues gasRemaining ctx.logs
  | .Revert => .Revert ctx.returnValues gasRemaining
  | .Error | .Default => .Halt

/-- `SyscallContext::write_result`. -/
def writeResult (ctx : SyscallContext) (offset bytesLen remainingGas
    executionResult : Nat) : SyscallContext :=
  { ctx with
    returnData := some (offset, bytesLen)
    gasRemaining := some remainingGas
    exitStatus := some (ExitStatusCode.fromU8 executionResult) }

/-- `SyscallContext::get_calldata_size`: `calldata.len() as u32`. -/
def getCalldataSize (ctx : SyscallContext) : Nat :=
  ctx.calldata.length % 2 ^ 32

/-- `SyscallContext::extend_memory`. `allocOk` stands for the outcome of
`Vec::try_reserve`: the returned `Bool` is true iff the returned pointer
is non-null; the second component is the (possibly resized) memory. -/
def extendMemory (ctx : SyscallContext) (newSize : Nat) (allocOk : Bool) :
    Bool × SyscallContext :=
  if newSize ≤ ctx.memory.length then (true, ctx)
  else if allocOk then
    (true, { ctx with
      memory := ctx.memory ++ List.replicate (newSize - ctx.memory.length) 0 })
  else (false, ctx)

/-- `SyscallContext::create_log`: appends a `Log` whose data is
`memory[offset..offset+size]`. Rust slicing panics when
`offset + size > memory.len()`; callers guarantee the bound by calling
`extend_memory` first, and here the slice clamps. -/
def createLog (ctx : SyscallContext) (offset size : Nat) (topics : List U256) :
    SyscallContext :=
  { ctx with
    logs := ctx.logs ++ [{ topics := topics
                           data := (ctx.memory.drop offset).take size }] }

/-- `SyscallContext::append_log`. -/
def appendLog (ctx : SyscallContext) (offset size : Nat) : SyscallContext :=
  ctx.createLog offset size []

/-- `SyscallContext::append_log_with_one_topic`. -/
def appendLogWithOneTopic (ctx : SyscallContext) (offset size : Nat)
    (topic : U256) : SyscallContext :=
  ctx.createLog offset size [topic]

/-- `SyscallContext::append_log_with_two_topics`. -/
def appendLogWithTwoTopics (ctx : SyscallContext) (offset size : Nat)
    (topic1 topic2 : U256) : SyscallContext :=
  ctx.createLog offset size [topic1, topic2]

/-- `SyscallContext::append_log_with_three_topics`. -/
def appendLogWithThreeTopics (ctx : SyscallContext) (offset size : Nat)
    (topic1 topic2 topic3 : U256) : SyscallContext :=
  ctx.createLog offset size [topic1, topic2, topic3]

/-- `SyscallContext::append_log_with_four_topics`. -/
def appendLogWithFourTopics (ctx : SyscallContext) (offset size : Nat)
    (topic1 topic2 topic3 topic4 : U256) : SyscallContext :=
  ctx.createLog offset size [topic1, topic2, topic3, topic4]

end SyscallContext

/-! ## IR values

A stack slot is written by `llvm.store` of whatever value the emitter
computed; the *IR type* of that value is part of the emitted code, so we
track it: `MValue` is a value together with its bit-width. A conforming
emitter pushes only 256-bit values (`arith.extui` to i256 first); an
emitter that pushes a raw `arith.cmpi` result pushes width 1. -/

structure MValue where
  width : Nat
  val : Nat
deriving Repr, DecidableEq

/-- A 256-bit IR value (e.g. the result of `arith.constant : i256`,
`arith.addi` on i256 operands, or `arith.extui` to i256). -/
def mk256 (v : Nat) : MValue :=
  ⟨256, v % 2 ^ 256⟩

/-- Read an i256 value as a signed (two's complement) integer, for the
signed `arith.cmpi` predicates and `llvm.sdiv`/`llvm.srem`. -/
def toInt256 (v : Nat) : Int :=
  if v < 2 ^ 255 then (v : Int) else (v : Int) - 2 ^ 256

/-- Reinterpret a signed integer as an i256 bit pattern. -/
def ofInt256 (i : Int) : Nat :=
  (i % (2 ^ 256 : Int)).toNat

/-- `arith.shrsi` / `llvm.ashr` on i256: arithmetic shift right, i.e.
floor division of the signed value by `2 ^ s`. -/
def sar256 (v s : Nat) : Nat :=
  ofInt256 (Int.fdiv (toInt256 v) ((2 : Int) ^ s))

/-! ## `src/utils.rs` and the missing `constants.rs` / helper utilities -/

/-- Modelled from the spec: `constants::REVERT_EXIT_CODE` (`constants.rs`
is not in src/). §4.9 and §7 fix the revert exit code to 3. -/
def REVERT_EXIT_CODE : Nat := 3

/-- Modelled from the spec: `constants::MAX_STACK_SIZE` (`constants.rs`
is not in src/). §3 fixes the stack capacity to 1024 slots. -/
def MAX_STACK_SIZE : Nat := 1024

/-- `utils::revert_block`: the block holds one
`arith.constant REVERT_EXIT_CODE : i8` and a `func.return` of it, so its
observable behaviour is exactly the exit code it returns. -/
def revertBlockExitCode : Nat := REVERT_EXIT_CODE

/-- `utils::check_stack_has_space_for`: the emitted comparison
`stack_ptr + element_count - MAX_STACK_SIZE ule stack_baseptr`, i.e.
`depth + element_count ≤ MAX_STACK_SIZE`. The stack is the list of slots
below the top pointer, head = top slot. -/
def checkStackHasSpaceFor (stack : List MValue) (elementCount : Nat) : Bool :=
  stack.length + elementCount ≤ MAX_STACK_SIZE

/-- Modelled from the spec: `utils::check_stack_has_at_least` (not in
src/). §4.2: `has-at-least N` elements on the stack. -/
def checkStackHasAtLeast (stack : List MValue) (elementCount : Nat) : Bool :=
  elementCount ≤ stack.length

/-- Modelled from the spec: `utils::compute_log_dynamic_gas` (not in
src/). §4.7: dynamic LOG gas is `8·size + 375·nth` on top of the static
base charged through the memory-expansion helper. -/
def logDynamicGas (nth size : Nat) : Nat :=
  375 * nth + 8 * size

/-- Byte-granular memory write: overwrite `mem[off .. off + bytes.length)`.
Callers extend memory first, so `off + bytes.length ≤ mem.length`. -/
def writeBytes (mem : List Nat) (off : Nat) (bytes : List Nat) : List Nat :=
  mem.take off ++ bytes ++ mem.drop (off + bytes.length)

/-- Byte-granular memory read of `mem[off .. off + len)`. -/
def readBytes (mem : List Nat) (off len : Nat) : List Nat :=
  (mem.drop off).take len

/-! ## The machine state of the emitted function -/

/-- Runtime state of one compiled EVM execution: the stack region (head =
top slot), the 64-bit gas register, the host context, the containing
program's `code_size`, and the environmental outcome of `try_reserve`
inside `extend_memory` (`allocOk`). -/
structure VMState where
  stack : List MValue
  gas : Nat
  ctx : SyscallContext
  codeSize : Nat
  allocOk : Bool
deriving Repr, DecidableEq

/-- Result of running one opcode's emitted blocks: fall through to the
next opcode's entry (`ok`), return from the function with an exit code
(`exit` via the revert block, `done` via the syscall bridge after
`write_result`), or branch to the jump-table block with a runtime PC. -/
inductive StepResult where
  | ok (st : VMState)
  | exit (code : Nat)
  | jumpTo (st : VMState) (pc : Nat)
  | done (st : VMState) (code : Nat)
deriving Repr, DecidableEq

/-- The decoded `Operation` kinds of `program.rs` (per the dispatcher
`generate_code_for_op`). -/
inductive Op where
  | Stop
  | Push0
  | Push (v : Nat)
  | Add
  | Mul
  | Sub
  | Div
  | Sdiv
  | Mod
  | SMod
  | Addmod
  | Mulmod
  | Exp
  | SignExtend
  | Lt
  | Gt
  | Slt
  | Sgt
  | Eq
  | IsZero
  | And
  | Or
  | Xor
  | Byte
  | Shr
  | Shl
  | Sar
  | Codesize
  | Pop
  | Mload
  | Jump
  | Jumpi
  | PC (pc : Nat)
  | Msize
  | Gas
  | Jumpdest (pc : Nat)
  | Mcopy
  | Dup (n : Nat)
  | Swap (n : Nat)
  | Return
  | Revert
  | Mstore
  | Mstore8
  | Log (n : Nat)
  | CalldataLoad
  | CallDataSize
deriving Repr, DecidableEq

/-- The stack condition each emitter computes in its start block
(`check_stack_has_at_least` / `check_stack_has_space_for`), opcode by
opcode as in `operations.rs`. `Stop` and `CallDataSize` emit no stack
check. -/
def entryStackOk (op : Op) (stack : List MValue) : Bool :=
  match op with
  | .Stop => true
  | .Push0 | .Push _ => checkStackHasSpaceFor stack 1
  | .Add | .Mul | .Sub | .Div | .Sdiv | .Mod | .SMod | .Exp | .SignExtend
  | .Lt | .Gt | .Slt | .Sgt | .Eq | .And | .Or | .Xor | .Byte | .Shr | .Shl
  | .Sar => checkStackHasAtLeast stack 2
  | .Addmod | .Mulmod => checkStackHasAtLeast stack 3
  | .IsZero => checkStackHasAtLeast stack 1
  | .Codesize => checkStackHasSpaceFor stack 1
  | .Pop => checkStackHasAtLeast stack 1
  | .Mload => checkStackHasAtLeast stack 1
  | .Jump => checkStackHasAtLeast stack 1
  | .Jumpi => checkStackHasAtLeast stack 2
  | .PC _ | .Msize | .Gas => checkStackHasSpaceFor stack 1
  | .Jumpdest _ => true
  | .Mcopy => checkStackHasAtLeast stack 3
  | .Dup n => checkStackHasAtLeast stack n
  | .Swap n => checkStackHasAtLeast stack (n + 1)
  | .Return | .Revert => checkStackHasAtLeast stack 2
  | .Mstore | .Mstore8 => checkStackHasAtLeast stack 2
  | .Log n => checkStackHasAtLeast stack (2 + n)
  | .CalldataLoad => checkStackHasAtLeast stack 1
  | .CallDataSize => true

/-- The static gas each emitter consumes in its start block via
`consume_gas` (`gas_cost::…` from the missing `constants.rs`, abstracted
as the cost table `gc`; `codegen_shr` passes the literal 3). The opcodes
whose start block calls no `consume_gas` — `Stop`, `Mload`, `Mcopy`,
`Return`, `Revert`, `Mstore`, `Mstore8`, `Log` — charge 0 there (their
static cost goes through the memory-expansion helper or nothing). -/
def entryGasCost (gc : Op → Nat) (op : Op) : Nat :=
  match op with
  | .Stop | .Mload | .Mcopy | .Return | .Revert
  | .Mstore | .Mstore8 | .Log _ => 0
  | .Shr => 3
  | _ => gc op

/-- Modelled from the spec: `utils::consume_gas` (not in src/) is
decrement-and-test (§3, §4.2); the start block's branch condition is the
conjunction of the stack flag and the gas flag, exactly as each emitter
computes `arith.andi(gas_flag, stack_flag)`. -/
def entryGuard (gc : Op → Nat) (op : Op) (st : VMState) : Bool :=
  entryStackOk op st.stack && decide (entryGasCost gc op ≤ st.gas)

/-- Modelled from the spec: `utils::extend_memory` (not in src/). §4.2 and
§4.5: inside the work block it charges the opcode's static cost plus the
dynamic memory-expansion cost (abstracted as `mdg oldLen newSize`), calls
the `extend_memory` syscall, and branches to the revert block on gas
underflow or a null returned pointer (`none` here). -/
def extendMemoryHelper (mdg : Nat → Nat → Nat) (st : VMState)
    (requiredSize staticCost : Nat) : Option VMState :=
  let cost := staticCost + mdg st.ctx.memory.length requiredSize
  if cost ≤ st.gas then
    match SyscallContext.extendMemory st.ctx requiredSize st.allocOk with
    | (true, ctx2) => some { st with gas := st.gas - cost, ctx := ctx2 }
    | (false, _) => none
  else none

/-- The `match nth` at the end of `codegen_log`, selecting the syscall
variant for the popped topic count (`debug_assert!(nth <= 4)` in the
source makes the last case unreachable). -/
def appendLogDispatch (ctx : SyscallContext) (off size : Nat)
    (topics : List U256) : SyscallContext :=
  match topics with
  | [] => ctx.appendLog off size
  | [t1] => ctx.appendLogWithOneTopic off size t1
  | [t1, t2] => ctx.appendLogWithTwoTopics off size t1 t2
  | [t1, t2, t3] => ctx.appendLogWithThreeTopics off size t1 t2 t3
  | [t1, t2, t3, t4] => ctx.appendLogWithFourTopics off size t1 t2 t3 t4
  | _ => ctx

/-- Modelled from the spec: `utils::swap_stack_elements(1, n+1)` (not in
src/). §4.3: exchanges the top slot with the `n+1`-th slot (1-indexed). -/
def swapTopWith (stack : List MValue) (n : Nat) : List MValue :=
  match stack.get? 0, stack.get? n with
  | some a, some b => (stack.set 0 b).set n a
  | _, _ => stack

/-! ## The per-opcode work blocks

`execBody` is the semantics of the blocks each `codegen_*` emitter places
after its entry guard, one arm per emitter, with pops in source order
(head of the list = top of the stack). The stack-shape fallbacks
(`.exit`) are unreachable: the entry guard already established the depth.

Parameters:
* `gc` — the static cost table `gas_cost::…` (`constants.rs` is not in
  src/);
* `dests` — the PCs registered as `JUMPDEST` landing blocks; the
  jump-table block (modelled from the spec, `codegen/context.rs` is not in
  src/) matches the runtime PC against them and defaults to the revert
  block (§4.6);
* `mdg` — the dynamic memory-expansion gas (old length, new size), part of
  the missing `utils::extend_memory`. -/
def execBody (gc : Op → Nat) (dests : List Nat) (mdg : Nat → Nat → Nat)
    (op : Op) (st : VMState) : StepResult :=
  match op with
  | .Stop =>
    -- return_empty_result: write_result(0, 0, gas, Stop) then return.
    -- Modelled from the spec (§4.6); the helper is not in src/.
    .done { st with ctx := st.ctx.writeResult 0 0 st.gas ExitStatusCode.Stop.toU8 }
      ExitStatusCode.Stop.toU8
  | .Push0 => .ok { st with stack := mk256 0 :: st.stack }
  | .Push v => .ok { st with stack := mk256 v :: st.stack }
  | .Add =>
    match st.stack with
    | lhs :: rhs :: rest =>
      .ok { st with stack := mk256 (lhs.val + rhs.val) :: rest }
    | _ => .exit REVERT_EXIT_CODE
  | .Mul =>
    match st.stack with
    | lhs :: rhs :: rest =>
      .ok { st with stack := mk256 (lhs.val * rhs.val) :: rest }
    | _ => .exit REVERT_EXIT_CODE
  | .Sub =>
    match st.stack with
    | lhs :: rhs :: rest =>
      .ok { st with stack := mk256 (lhs.val + 2 ^ 256 - rhs.val % 2 ^ 256) :: rest }
    | _ => .exit REVERT_EXIT_CODE
  | .Div =>
    -- num = first pop (top), den = second pop; den == 0 branch pushes 0,
    -- both branches join at the return block.
    match st.stack with
    | num :: den :: rest =>
      if den.val = 0 then .ok { st with stack := mk256 0 :: rest }
      else .ok { st with stack := mk256 (num.val / den.val) :: rest }
    | _ => .exit REVERT_EXIT_CODE
  | .Sdiv =>
    match st.stack with
    | num :: den :: rest =>
      if den.val = 0 then .ok { st with stack := mk256 0 :: rest }
      else
        let q := mk256 (ofInt256 (Int.tdiv (toInt256 num.val) (toInt256 den.val)))
        .ok { st with stack := q :: rest }
    | _ => .exit REVERT_EXIT_CODE
  | .Mod =>
    match st.stack with
    | num :: den :: rest =>
      if den.val = 0 then .ok { st with stack := mk256 0 :: rest }
      else .ok { st with stack := mk256 (num.val % den.val) :: rest }
    | _ => .exit REVERT_EXIT_CODE
  | .SMod =>
    match st.stack with
    | num :: den :: rest =>
      if den.val = 0 then .ok { st with stack := mk256 0 :: rest }
      else
        let r := mk256 (ofInt256 (Int.tmod (toInt256 num.val) (toInt256 den.val)))
        .ok { st with stack := r :: rest }
    | _ => .exit REVERT_EXIT_CODE
  | .Addmod =>
    -- a, b, den extended by arith.extui to i257; arith.addi wraps there;
    -- arith.remui; arith.trunci back to i256.
    match st.stack with
    | a :: b :: den :: rest =>
      if den.val = 0 then .ok { st with stack := mk256 0 :: rest }
      else
        let r := mk256 (((a.val + b.val) % 2 ^ 257 % den.val) % 2 ^ 256)
        .ok { st with stack := r :: rest }
    | _ => .exit REVERT_EXIT_CODE
  | .Mulmod =>
    -- same shape, widened to i512 for the product.
    match st.stack with
    | a :: b :: den :: rest =>
      if den.val = 0 then .ok { st with stack := mk256 0 :: rest }
      else
        let r := mk256 ((a.val * b.val) % 2 ^ 512 % den.val % 2 ^ 256)
        .ok { st with stack := r :: rest }
    | _ => .exit REVERT_EXIT_CODE
  | .Exp =>
    -- the source calls math.ipowi(rhs, lhs): base = rhs (second pop),
    -- exponent = lhs (first pop).
    match st.stack with
    | lhs :: rhs :: rest =>
      .ok { st with stack := mk256 (rhs.val ^ lhs.val) :: rest }
    | _ => .exit REVERT_EXIT_CODE
  | .SignExtend =>
    match st.stack with
    | byteSize :: value :: rest =>
      let b := min byteSize.val 31
      let bitsToShift := 255 - (b * 8 + 7)
      let shifted := (value.val <<< bitsToShift) % 2 ^ 256
      .ok { st with stack := mk256 (sar256 shifted bitsToShift) :: rest }
    | _ => .exit REVERT_EXIT_CODE
  | .Lt =>
    -- raw arith.cmpi ult result (an i1) pushed with no extension.
    match st.stack with
    | lhs :: rhs :: rest =>
      .ok { st with stack := (⟨1, if lhs.val < rhs.val then 1 else 0⟩ : MValue) :: rest }
    | _ => .exit REVERT_EXIT_CODE
  | .Gt =>
    -- the source pops rhs first (top of stack) and lhs second, then
    -- compares ugt(lhs, rhs); the raw i1 is pushed with no extension.
    match st.stack with
    | rhs :: lhs :: rest =>
      .ok { st with stack := (⟨1, if rhs.val < lhs.val then 1 else 0⟩ : MValue) :: rest }
    | _ => .exit REVERT_EXIT_CODE
  | .Slt =>
    match st.stack with
    | lhs :: rhs :: rest =>
      let r : MValue := ⟨1, if toInt256 lhs.val < toInt256 rhs.val then 1 else 0⟩
      .ok { st with stack := r :: rest }
    | _ => .exit REVERT_EXIT_CODE
  | .Sgt =>
    match st.stack with
    | lhs :: rhs :: rest =>
      let r : MValue := ⟨1, if toInt256 rhs.val < toInt256 lhs.val then 1 else 0⟩
      .ok { st with stack := r :: rest }
    | _ => .exit REVERT_EXIT_CODE
  | .Eq =>
    match st.stack with
    | lhs :: rhs :: rest =>
      .ok { st with stack := (⟨1, if lhs.val = rhs.val then 1 else 0⟩ : MValue) :: rest }
    | _ => .exit REVERT_EXIT_CODE
  | .IsZero =>
    -- arith.cmpi eq against 0, then arith.extui of the i1 to i256.
    match st.stack with
    | value :: rest =>
      .ok { st with stack := (⟨256, if value.val = 0 then 1 else 0⟩ : MValue) :: rest }
    | _ => .exit REVERT_EXIT_CODE
  | .And =>
    match st.stack with
    | lhs :: rhs :: rest =>
      .ok { st with stack := mk256 (lhs.val &&& rhs.val) :: rest }
    | _ => .exit REVERT_EXIT_CODE
  | .Or =>
    match st.stack with
    | lhs :: rhs :: rest =>
      .ok { st with stack := mk256 (lhs.val ||| rhs.val) :: rest }
    | _ => .exit REVERT_EXIT_CODE
  | .Xor =>
    match st.stack with
    | lhs :: rhs :: rest =>
      .ok { st with stack := mk256 (lhs.val ^^^ rhs.val) :: rest }
    | _ => .exit REVERT_EXIT_CODE
  | .Byte =>
    match st.stack with
    | offset :: value :: rest =>
      let offsetInBits := offset.val * 8 % 2 ^ 256
      if 248 < offsetInBits then .ok { st with stack := mk256 0 :: rest }
      else
        let r := mk256 ((value.val >>> (248 - offsetInBits)) &&& 255)
        .ok { st with stack := r :: rest }
    | _ => .exit REVERT_EXIT_CODE
  | .Shr =>
    match st.stack with
    | shift :: value :: rest =>
      if shift.val < 255 then
        .ok { st with stack := mk256 (value.val >>> shift.val) :: rest }
      else .ok { st with stack := mk256 0 :: rest }
    | _ => .exit REVERT_EXIT_CODE
  | .Shl =>
    match st.stack with
    | shift :: value :: rest =>
      if shift.val < 255 then
        .ok { st with stack := mk256 (value.val <<< shift.val) :: rest }
      else .ok { st with stack := mk256 0 :: rest }
    | _ => .exit REVERT_EXIT_CODE
  | .Sar =>
    match st.stack with
    | shift :: value :: rest =>
      .ok { st with stack := mk256 (sar256 value.val (min shift.val 255)) :: rest }
    | _ => .exit REVERT_EXIT_CODE
  | .Codesize => .ok { st with stack := mk256 st.codeSize :: st.stack }
  | .Pop =>
    match st.stack with
    | _ :: rest => .ok { st with stack := rest }
    | _ => .exit REVERT_EXIT_CODE
  | .Mload =>
    match st.stack with
    | offset :: rest =>
      let off := offset.val % 2 ^ 32
      let requiredSize := (off + 32) % 2 ^ 32
      match extendMemoryHelper mdg { st with stack := rest } requiredSize (gc .Mload) with
      | none => .exit REVERT_EXIT_CODE
      | some st2 =>
        let w := mk256 (bswap256 (leBytesToNat (readBytes st2.ctx.memory off 32)))
        .ok { st2 with stack := w :: st2.stack }
    | _ => .exit REVERT_EXIT_CODE
  | .Jump =>
    match st.stack with
    | pcv :: rest =>
      if dests.contains pcv.val then .jumpTo { st with stack := rest } pcv.val
      else .exit REVERT_EXIT_CODE
    | _ => .exit REVERT_EXIT_CODE
  | .Jumpi =>
    match st.stack with
    | pcv :: condV :: rest =>
      if condV.val ≠ 0 then
        if dests.contains pcv.val then .jumpTo { st with stack := rest } pcv.val
        else .exit REVERT_EXIT_CODE
      else .ok { st with stack := rest }
    | _ => .exit REVERT_EXIT_CODE
  | .PC pc => .ok { st with stack := mk256 pc :: st.stack }
  | .Msize =>
    -- reads the 32-bit memory-size global and zero-extends to i256.
    .ok { st with stack := mk256 (st.ctx.memory.length % 2 ^ 32) :: st.stack }
  | .Gas =>
    -- get_remaining_gas after the entry consume_gas, zero-extended.
    .ok { st with stack := mk256 st.gas :: st.stack }
  | .Jumpdest _ => .ok st
  | .Mcopy =>
    match st.stack with
    | destOffset :: offset :: size :: rest =>
      let d := destOffset.val % 2 ^ 32
      let o := offset.val % 2 ^ 32
      let s := size.val % 2 ^ 32
      let requiredSize := max ((o + s) % 2 ^ 32) ((d + s) % 2 ^ 32)
      match extendMemoryHelper mdg { st with stack := rest } requiredSize (gc .Mcopy) with
      | none => .exit REVERT_EXIT_CODE
      | some st2 =>
        -- llvm.intr_memmove: the source bytes are read before the write.
        let mem2 := writeBytes st2.ctx.memory d (readBytes st2.ctx.memory o s)
        .ok { st2 with ctx := { st2.ctx with memory := mem2 } }
    | _ => .exit REVERT_EXIT_CODE
  | .Dup n =>
    -- get_nth_from_stack (modelled from the spec: peek_nth, 1-indexed).
    match st.stack.get? (n - 1) with
    | some v => .ok { st with stack := v :: st.stack }
    | none => .exit REVERT_EXIT_CODE
  | .Swap n => .ok { st with stack := swapTopWith st.stack n }
  | .Return =>
    -- return_result_from_stack (modelled from the spec, §4.6): pop offset
    -- and size, write_result(offset, size, gas, Return), return the code.
    match st.stack with
    | offset :: size :: rest =>
      let ctx2 := st.ctx.writeResult (offset.val % 2 ^ 32) (size.val % 2 ^ 32)
        st.gas ExitStatusCode.Return.toU8
      .done { st with stack := rest, ctx := ctx2 } ExitStatusCode.Return.toU8
    | _ => .exit REVERT_EXIT_CODE
  | .Revert =>
    match st.stack with
    | offset :: size :: rest =>
      let ctx2 := st.ctx.writeResult (offset.val % 2 ^ 32) (size.val % 2 ^ 32)
        st.gas ExitStatusCode.Revert.toU8
      .done { st with stack := rest, ctx := ctx2 } ExitStatusCode.Revert.toU8
    | _ => .exit REVERT_EXIT_CODE
  | .Mstore =>
    match st.stack with
    | offset :: value :: rest =>
      let off := offset.val % 2 ^ 32
      let requiredSize := (off + 32) % 2 ^ 32
      match extendMemoryHelper mdg { st with stack := rest } requiredSize (gc .Mstore) with
      | none => .exit REVERT_EXIT_CODE
      | some st2 =>
        -- llvm.store of intr_bswap(value) lays down the big-endian bytes.
        let mem2 := writeBytes st2.ctx.memory off (natToLeBytes 32 (bswap256 value.val))
        .ok { st2 with ctx := { st2.ctx with memory := mem2 } }
    | _ => .exit REVERT_EXIT_CODE
  | .Mstore8 =>
    match st.stack with
    | offset :: value :: rest =>
      let off := offset.val % 2 ^ 32
      let requiredSize := (off + 1) % 2 ^ 32
      match extendMemoryHelper mdg { st with stack := rest } requiredSize (gc .Mstore8) with
      | none => .exit REVERT_EXIT_CODE
      | some st2 =>
        let mem2 := writeBytes st2.ctx.memory off [value.val % 256]
        .ok { st2 with ctx := { st2.ctx with memory := mem2 } }
    | _ => .exit REVERT_EXIT_CODE
  | .Log n =>
    match st.stack with
    | offsetV :: sizeV :: rest =>
      let off := offsetV.val % 2 ^ 32
      let sz := sizeV.val % 2 ^ 32
      let requiredSize := (off + sz) % 2 ^ 32
      -- consume_gas_as_value for the dynamic LOG gas: the source drops the
      -- returned flag, so the decrement is unguarded.
      let st1 : VMState := { st with stack := rest, gas := st.gas - logDynamicGas n sizeV.val }
      match extendMemoryHelper mdg st1 requiredSize (gc (.Log n)) with
      | none => .exit REVERT_EXIT_CODE
      | some st2 =>
        let topics := (st2.stack.take n).map fun t => toU256 t.val
        let ctx2 := appendLogDispatch st2.ctx off sz topics
        .ok { st2 with stack := st2.stack.drop n, ctx := ctx2 }
    | _ => .exit REVERT_EXIT_CODE
  | .CalldataLoad =>
    match st.stack with
    | offset :: rest =>
      let size := st.ctx.getCalldataSize
      if offset.val < size then
        let len := min (size - offset.val) 32
        -- zero-filled slot, memcpy of len bytes, then intr_bswap.
        let bytes := (st.ctx.calldata.drop offset.val).take len
          ++ List.replicate (32 - len) 0
        let w := mk256 (bswap256 (leBytesToNat bytes))
        .ok { st with stack := w :: rest }
      else .ok { st with stack := mk256 0 :: rest }
    | _ => .exit REVERT_EXIT_CODE
  | .CallDataSize =>
    .ok { st with stack := mk256 st.ctx.getCalldataSize :: st.stack }

/-- One opcode's emitted pair of blocks: the entry block tests the guard
and conditionally branches to the work block (`execBody`, with the gas
register decremented) or to the shared revert block, which returns
`REVERT_EXIT_CODE`. -/
def execOp (gc : Op → Nat) (dests : List Nat) (mdg : Nat → Nat → Nat)
    (op : Op) (st : VMState) : StepResult :=
  if entryGuard gc op st then
    execBody gc dests mdg op { st with gas := st.gas - entryGasCost gc op }
  else .exit REVERT_EXIT_CODE

/-! ## Concrete instances used by witnesses -/

/-- A concrete static-gas table: every opcode costs 0. -/
def gc0 : Op → Nat := fun _ => 0

/-- A concrete dynamic memory-expansion gas function: always 0. -/
def mdg0 : Nat → Nat → Nat := fun _ _ => 0

/-- A fresh host context (`SyscallContext::default()` with no calldata). -/
def ctx0 : SyscallContext :=
  ⟨[], none, none, none, [], []⟩

/-! ## Helper lemmas about the memory-expansion helper and byte writes -/

theorem extendMemoryHelper_some (mdg : Nat → Nat → Nat) (st : VMState)
    (req cost : Nat) (st2 : VMState)
    (h : extendMemoryHelper mdg st req cost = some st2) :
    (∃ k, st2.ctx.memory = st.ctx.memory ++ List.replicate k 0) ∧
    req ≤ st2.ctx.memory.length ∧
    st2.stack = st.stack ∧ st2.codeSize = st.codeSize ∧
    st2.allocOk = st.allocOk ∧
    st2.ctx.calldata = st.ctx.calldata ∧ st2.ctx.logs = st.ctx.logs ∧
    st2.ctx.returnData = st.ctx.returnData ∧
    st2.ctx.gasRemaining = st.ctx.gasRemaining ∧
    st2.ctx.exitStatus = st.ctx.exitStatus := by
  unfold extendMemoryHelper at h
  by_cases hg : cost + mdg st.ctx.memory.length req ≤ st.gas
  · rw [if_pos hg] at h
    unfold SyscallContext.extendMemory at h
    by_cases hle : req ≤ st.ctx.memory.length
    · rw [if_pos hle] at h
      simp only [Option.some.injEq] at h
      subst h
      exact ⟨⟨0, by simp⟩, by simpa using hle, rfl, rfl, rfl, rfl, rfl, rfl, rfl, rfl⟩
    · rw [if_neg hle] at h
      cases hA : st.allocOk
      · rw [hA] at h; simp at h
      · rw [hA] at h
        simp only [if_true, Option.some.injEq] at h
        subst h
        refine ⟨⟨req - st.ctx.memory.length, rfl⟩, ?_, rfl, rfl, rfl, rfl, rfl, rfl, rfl, rfl⟩
        simp only [List.length_append, List.length_replicate]
        omega
  · rw [if_neg hg] at h
    simp at h

theorem readBytes_writeBytes (mem : List Nat) (off : Nat) (bs : List Nat)
    (hoff : off ≤ mem.length) :
    readBytes (writeBytes mem off bs) off bs.length = bs := by
  unfold readBytes writeBytes
  generalize hpre : mem.take off = pre
  have hlen : pre.length = off := by
    rw [← hpre, List.length_take]; omega
  rw [List.append_assoc, ← hlen, List.drop_left, List.take_left]

theorem writeBytes_length (mem : List Nat) (off : Nat) (bs : List Nat)
    (h : off + bs.length ≤ mem.length) :
    (writeBytes mem off bs).length = mem.length := by
  unfold writeBytes
  simp only [List.length_append, List.length_take, List.length_drop]
  omega

theorem bswap256_leBytesToNat (l : List Nat) (hl : l.length = 32)
    (hb : ∀ b ∈ l, b < 256) :
    bswap256 (leBytesToNat l) = beBytesToNat l := by
  rw [bswap256, beBytesToNat, ← hl, natToLeBytes_leBytesToNat l hb]

/-- The topic-count dispatch at the end of `codegen_log` funnels every
topic count from 0 to 4 into `create_log` with the popped topics. -/
theorem appendLogDispatch_eq_createLog (ctx : SyscallContext) (off sz : Nat)
    (ts : List U256) (h : ts.length ≤ 4) :
    appendLogDispatch ctx off sz ts = ctx.createLog off sz ts :=
  match ts with
  | [] => rfl
  | [_] => rfl
  | [_, _] => rfl
  | [_, _, _] => rfl
  | [_, _, _, _] => rfl
  | _ :: _ :: _ :: _ :: _ :: _ => absurd h (by simp)

/-! ## Claims -/

/-- C1 (refuted — the code contradicts the spec's stated requirement):
at a failing input for each comparison opcode, with stack and gas guards
passing, the emitted code pushes the raw `arith.cmpi` result — an i1
(width 1) — with no `arith.extui` to 256 bits, so the pushed slot is not
the full 256-bit word `mk256 1` / `mk256 0` the claim requires. `ISZERO`,
by contrast, does push the zero-extended 256-bit word. -/
theorem c1_comparisons_push_raw_i1 :
    execOp gc0 [] mdg0 .Lt ⟨[mk256 0, mk256 1], 9, ctx0, 0, true⟩ =
      .ok ⟨[⟨1, 1⟩], 9, ctx0, 0, true⟩ ∧
    execOp gc0 [] mdg0 .Gt ⟨[mk256 1, mk256 0], 9, ctx0, 0, true⟩ =
      .ok ⟨[⟨1, 0⟩], 9, ctx0, 0, true⟩ ∧
    execOp gc0 [] mdg0 .Slt ⟨[mk256 0, mk256 1], 9, ctx0, 0, true⟩ =
      .ok ⟨[⟨1, 1⟩], 9, ctx0, 0, true⟩ ∧
    execOp gc0 [] mdg0 .Sgt ⟨[mk256 1, mk256 0], 9, ctx0, 0, true⟩ =
      .ok ⟨[⟨1, 1⟩], 9, ctx0, 0, true⟩ ∧
    execOp gc0 [] mdg0 .Eq ⟨[mk256 5, mk256 5], 9, ctx0, 0, true⟩ =
      .ok ⟨[⟨1, 1⟩], 9, ctx0, 0, true⟩ ∧
    (⟨1, 1⟩ : MValue) ≠ mk256 1 ∧
    execOp gc0 [] mdg0 .IsZero ⟨[mk256 0], 9, ctx0, 0, true⟩ =
      .ok ⟨[⟨256, 1⟩], 9, ctx0, 0, true⟩ := by
  refine ⟨?_, ?_, ?_, ?_, ?_, ?_, ?_⟩ <;> decide

/-- C2: after the guards pass, `DIV` pushes the unsigned quotient `a / b`
and `MOD` the unsigned remainder `a % b` of the popped operands (`a` the
top of the stack), pushing 0 when `b = 0`; in every case the step falls
through normally (no revert, no trap: the zero-denominator branch joins
the same return block). -/
theorem c2_div_mod (gc : Op → Nat) (dests : List Nat) (mdg : Nat → Nat → Nat)
    (a b : Nat) (ha : a < 2 ^ 256) (hb : b < 2 ^ 256)
    (rest : List MValue) (st : VMState)
    (hstack : st.stack = mk256 a :: mk256 b :: rest)
    (hgasDiv : gc .Div ≤ st.gas) (hgasMod : gc .Mod ≤ st.gas) :
    execOp gc dests mdg .Div st =
      .ok { st with stack := mk256 (if b = 0 then 0 else a / b) :: rest, gas := st.gas - gc .Div } ∧
    execOp gc dests mdg .Mod st =
      .ok { st with stack := mk256 (if b = 0 then 0 else a % b) :: rest, gas := st.gas - gc .Mod } := by
  have hma : (mk256 a).val = a := Nat.mod_eq_of_lt ha
  have hmb : (mk256 b).val = b := Nat.mod_eq_of_lt hb
  constructor
  · rw [execOp, if_pos (by
      simp [entryGuard, entryStackOk, checkStackHasAtLeast, hstack, entryGasCost, hgasDiv])]
    simp only [execBody, entryGasCost, hstack, hma, hmb]
    by_cases h0 : b = 0 <;> simp [h0]
  · rw [execOp, if_pos (by
      simp [entryGuard, entryStackOk, checkStackHasAtLeast, hstack, entryGasCost, hgasMod])]
    simp only [execBody, entryGasCost, hstack, hma, hmb]
    by_cases h0 : b = 0 <;> simp [h0]

/-- Witness for C2: `7 / 2 = 3` and `7 % 2 = 1`, plus the zero
denominator pushing 0 for both. -/
theorem c2_witness :
    execOp gc0 [] mdg0 .Div ⟨[mk256 7, mk256 2], 5, ctx0, 0, true⟩ =
      .ok ⟨[mk256 3], 5, ctx0, 0, true⟩ ∧
    execOp gc0 [] mdg0 .Mod ⟨[mk256 7, mk256 2], 5, ctx0, 0, true⟩ =
      .ok ⟨[mk256 1], 5, ctx0, 0, true⟩ ∧
    execOp gc0 [] mdg0 .Div ⟨[mk256 7, mk256 0], 5, ctx0, 0, true⟩ =
      .ok ⟨[mk256 0], 5, ctx0, 0, true⟩ ∧
    execOp gc0 [] mdg0 .Mod ⟨[mk256 7, mk256 0], 5, ctx0, 0, true⟩ =
      .ok ⟨[mk256 0], 5, ctx0, 0, true⟩ := by
  have h1 := c2_div_mod gc0 [] mdg0 7 2 (by norm_num) (by norm_num) []
    ⟨[mk256 7, mk256 2], 5, ctx0, 0, true⟩ rfl (by decide) (by decide)
  have h2 := c2_div_mod gc0 [] mdg0 7 0 (by norm_num) (by norm_num) []
    ⟨[mk256 7, mk256 0], 5, ctx0, 0, true⟩ rfl (by decide) (by decide)
  exact ⟨by simpa [gc0] using h1.1, by simpa [gc0] using h1.2,
    by simpa [gc0] using h2.1, by simpa [gc0] using h2.2⟩

/-- C3: after the guards pass, with `n ≠ 0`, `ADDMOD` pushes `(a+b) mod n`
and `MULMOD` pushes `(a·b) mod n` exactly — the i257/i512 widening makes
the intermediate sum/product exact and the final truncation to i256 is
the identity on the reduced value; with `n = 0` both push 0. -/
theorem c3_addmod_mulmod (gc : Op → Nat) (dests : List Nat) (mdg : Nat → Nat → Nat)
    (a b n : Nat) (ha : a < 2 ^ 256) (hb : b < 2 ^ 256) (hn : n < 2 ^ 256)
    (rest : List MValue) (st : VMState)
    (hstack : st.stack = mk256 a :: mk256 b :: mk256 n :: rest)
    (hgasA : gc .Addmod ≤ st.gas) (hgasM : gc .Mulmod ≤ st.gas) :
    execOp gc dests mdg .Addmod st =
      .ok { st with stack := mk256 (if n = 0 then 0 else (a + b) % n) :: rest, gas := st.gas - gc .Addmod } ∧
    execOp gc dests mdg .Mulmod st =
      .ok { st with stack := mk256 (if n = 0 then 0 else a * b % n) :: rest, gas := st.gas - gc .Mulmod } := by
  have hma : (mk256 a).val = a := Nat.mod_eq_of_lt ha
  have hmb : (mk256 b).val = b := Nat.mod_eq_of_lt hb
  have hmn : (mk256 n).val = n := Nat.mod_eq_of_lt hn
  constructor
  · rw [execOp, if_pos (by
      simp [entryGuard, entryStackOk, checkStackHasAtLeast, hstack, entryGasCost, hgasA])]
    simp only [execBody, entryGasCost, hstack, hma, hmb, hmn]
    by_cases h0 : n = 0
    · simp [h0]
    · have hpos : 0 < n := Nat.pos_of_ne_zero h0
      have hsum : a + b < 2 ^ 257 := by
        have h257 : (2 : Nat) ^ 257 = 2 ^ 256 + 2 ^ 256 := by
          rw [pow_succ]; ring
        omega
      have hred : (a + b) % n < 2 ^ 256 := lt_trans (Nat.mod_lt _ hpos) hn
      have hred2 : (a + b) % n %
          115792089237316195423570985008687907853269984665640564039457584007913129639936 =
          (a + b) % n := Nat.mod_eq_of_lt (by norm_num at hred ⊢; exact hred)
      simp [h0, Nat.mod_eq_of_lt hsum, hred2]
  · rw [execOp, if_pos (by
      simp [entryGuard, entryStackOk, checkStackHasAtLeast, hstack, entryGasCost, hgasM])]
    simp only [execBody, entryGasCost, hstack, hma, hmb, hmn]
    by_cases h0 : n = 0
    · simp [h0]
    · have hpos : 0 < n := Nat.pos_of_ne_zero h0
      have hprod : a * b < 2 ^ 512 := by
        calc a * b < 2 ^ 256 * 2 ^ 256 :=
              Nat.mul_lt_mul_of_lt_of_le ha (Nat.le_of_lt hb) (by norm_num)
        _ = 2 ^ 512 := by norm_num
      have hred : a * b % n < 2 ^ 256 := lt_trans (Nat.mod_lt _ hpos) hn
      have hred2 : a * b % n %
          115792089237316195423570985008687907853269984665640564039457584007913129639936 =
          a * b % n := Nat.mod_eq_of_lt (by norm_num at hred ⊢; exact hred)
      simp [h0, Nat.mod_eq_of_lt hprod, hred2]

/-- Witness for C3: `(3 + 4) % 5 = 2` and `(3 · 4) % 5 = 2`, plus the
zero modulus pushing 0 for both. -/
theorem c3_witness :
    execOp gc0 [] mdg0 .Addmod ⟨[mk256 3, mk256 4, mk256 5], 5, ctx0, 0, true⟩ =
      .ok ⟨[mk256 2], 5, ctx0, 0, true⟩ ∧
    execOp gc0 [] mdg0 .Mulmod ⟨[mk256 3, mk256 4, mk256 5], 5, ctx0, 0, true⟩ =
      .ok ⟨[mk256 2], 5, ctx0, 0, true⟩ ∧
    execOp gc0 [] mdg0 .Addmod ⟨[mk256 3, mk256 4, mk256 0], 5, ctx0, 0, true⟩ =
      .ok ⟨[mk256 0], 5, ctx0, 0, true⟩ ∧
    execOp gc0 [] mdg0 .Mulmod ⟨[mk256 3, mk256 4, mk256 0], 5, ctx0, 0, true⟩ =
      .ok ⟨[mk256 0], 5, ctx0, 0, true⟩ := by
  have h1 := c3_addmod_mulmod gc0 [] mdg0 3 4 5 (by norm_num) (by norm_num) (by norm_num)
    [] ⟨[mk256 3, mk256 4, mk256 5], 5, ctx0, 0, true⟩ rfl (by decide) (by decide)
  have h2 := c3_addmod_mulmod gc0 [] mdg0 3 4 0 (by norm_num) (by norm_num) (by norm_num)
    [] ⟨[mk256 3, mk256 4, mk256 0], 5, ctx0, 0, true⟩ rfl (by decide) (by decide)
  exact ⟨by simpa [gc0] using h1.1, by simpa [gc0] using h1.2,
    by simpa [gc0] using h2.1, by simpa [gc0] using h2.2⟩

/-- C5: the revert trampoline's only behaviour is to return the fixed
revert exit code 3 (`ExitStatusCode::Error`), and every entry-guard
failure (stack underflow/overflow, gas underflow) of every opcode
emitter, as well as every dynamic jump to an unregistered PC (through
the jump table's default case), terminates the function with that exit
code. -/
theorem c5_revert_trampoline :
    revertBlockExitCode = ExitStatusCode.Error.toU8 ∧
    (∀ (gc : Op → Nat) (dests : List Nat) (mdg : Nat → Nat → Nat)
      (op : Op) (st : VMState),
      entryGuard gc op st = false →
      execOp gc dests mdg op st = .exit revertBlockExitCode) ∧
    (∀ (gc : Op → Nat) (dests : List Nat) (mdg : Nat → Nat → Nat)
      (st : VMState) (pcv : MValue) (rest : List MValue),
      st.stack = pcv :: rest →
      dests.contains pcv.val = false →
      entryGuard gc .Jump st = true →
      execOp gc dests mdg .Jump st = .exit revertBlockExitCode) := by
  refine ⟨rfl, ?_, ?_⟩
  · intro gc dests mdg op st h
    rw [execOp, if_neg (by simp [h])]
    rfl
  · intro gc dests mdg st pcv rest hstack hdest hguard
    rw [execOp, if_pos hguard]
    have hmem : pcv.val ∉ dests := by simpa using hdest
    simp [execBody, hstack, hmem]
    rfl

/-- Witness for C5: stack underflow on `ADD` (empty stack), gas underflow
on `ADD` (cost 1, gas 0), and a `JUMP` to the unregistered PC 7. -/
theorem c5_witness :
    execOp gc0 [] mdg0 .Add ⟨[], 9, ctx0, 0, true⟩ = .exit revertBlockExitCode ∧
    execOp (fun _ => 1) [] mdg0 .Add ⟨[mk256 1, mk256 2], 0, ctx0, 0, true⟩ =
      .exit revertBlockExitCode ∧
    execOp gc0 [4] mdg0 .Jump ⟨[mk256 7], 9, ctx0, 0, true⟩ =
      .exit revertBlockExitCode :=
  ⟨c5_revert_trampoline.2.1 gc0 [] mdg0 .Add ⟨[], 9, ctx0, 0, true⟩ (by decide),
   c5_revert_trampoline.2.1 (fun _ => 1) [] mdg0 .Add
     ⟨[mk256 1, mk256 2], 0, ctx0, 0, true⟩ (by decide),
   c5_revert_trampoline.2.2 gc0 [4] mdg0 ⟨[mk256 7], 9, ctx0, 0, true⟩
     (mk256 7) [] rfl (by decide) (by decide)⟩

/-- The slice clamp: taking `min (remaining) k` elements is taking `k`. -/
theorem take_min_length (l : List Nat) (k : Nat) :
    l.take (min l.length k) = l.take k := by
  rcases le_total l.length k with h | h
  · rw [min_eq_left h, List.take_of_length_le (le_refl _), List.take_of_length_le h]
  · rw [min_eq_right h]

/-- C4: CALLDATALOAD pushes 0 when `offset ≥ calldata_size`; when
`offset < calldata_size` it pushes the big-endian interpretation of
calldata bytes `[offset, offset+32)`, right-padded with zeros when fewer
than 32 bytes remain (`min (calldata_size - offset) 32` bytes copied into
a zero-filled slot). -/
theorem c4_calldataload (gc : Op → Nat) (dests : List Nat) (mdg : Nat → Nat → Nat)
    (cd : List Nat) (hcd : ∀ x ∈ cd, x < 256) (hlen : cd.length < 2 ^ 32)
    (offset : Nat) (hoff : offset < 2 ^ 256)
    (rest : List MValue) (st : VMState)
    (hstack : st.stack = mk256 offset :: rest)
    (hcalldata : st.ctx.calldata = cd)
    (hgas : gc .CalldataLoad ≤ st.gas) :
    (cd.length ≤ offset →
      execOp gc dests mdg .CalldataLoad st =
        .ok { st with stack := mk256 0 :: rest, gas := st.gas - gc .CalldataLoad }) ∧
    (offset < cd.length →
      execOp gc dests mdg .CalldataLoad st =
        .ok { st with stack := mk256 (beBytesToNat ((cd.drop offset).take 32 ++ List.replicate (32 - min (cd.length - offset) 32) 0)) :: rest, gas := st.gas - gc .CalldataLoad }) := by
  have hoffv : (mk256 offset).val = offset := Nat.mod_eq_of_lt hoff
  have hsz : SyscallContext.getCalldataSize st.ctx = cd.length := by
    rw [SyscallContext.getCalldataSize, hcalldata]
    exact Nat.mod_eq_of_lt hlen
  constructor
  · intro h
    rw [execOp, if_pos (by
      simp [entryGuard, entryStackOk, checkStackHasAtLeast, hstack, entryGasCost, hgas])]
    have hnot : ¬ (mk256 offset).val < SyscallContext.getCalldataSize st.ctx := by
      rw [hoffv, hsz]; omega
    simp only [execBody, entryGasCost, hstack, if_neg hnot]
  · intro h
    rw [execOp, if_pos (by
      simp [entryGuard, entryStackOk, checkStackHasAtLeast, hstack, entryGasCost, hgas])]
    have hyes : (mk256 offset).val < SyscallContext.getCalldataSize st.ctx := by
      rw [hoffv, hsz]; omega
    simp only [execBody, entryGasCost, hstack, if_pos hyes, hoffv, hsz, hcalldata]
    have htake : (cd.drop offset).take (min (cd.length - offset) 32) =
        (cd.drop offset).take 32 := by
      rw [← List.length_drop, take_min_length]
    rw [htake]
    have hblen : ((cd.drop offset).take 32 ++
        List.replicate (32 - min (cd.length - offset) 32) 0).length = 32 := by
      simp only [List.length_append, List.length_take, List.length_drop,
        List.length_replicate]
      omega
    have hbts : ∀ b ∈ (cd.drop offset).take 32 ++
        List.replicate (32 - min (cd.length - offset) 32) 0, b < 256 := by
      intro b hb
      rcases List.mem_append.mp hb with hb | hb
      · exact hcd b (List.drop_subset _ _ (List.take_subset _ _ hb))
      · rw [List.eq_of_mem_replicate hb]; norm_num
    rw [bswap256_leBytesToNat _ hblen hbts, if_pos h]

/-- A host context carrying the two-byte calldata `[1, 2]`. -/
def ctxCd : SyscallContext :=
  ⟨[], none, none, none, [1, 2], []⟩

/-- Witness for C4: an in-range offset 1 into the calldata `[1, 2]` (one
byte remains, right-padded) and the out-of-range offset 5 pushing 0. -/
theorem c4_witness :
    execOp gc0 [] mdg0 .CalldataLoad ⟨[mk256 1], 5, ctxCd, 0, true⟩ =
      .ok ⟨[mk256 (beBytesToNat ([2] ++ List.replicate 31 0))], 5, ctxCd, 0, true⟩ ∧
    execOp gc0 [] mdg0 .CalldataLoad ⟨[mk256 5], 5, ctxCd, 0, true⟩ =
      .ok ⟨[mk256 0], 5, ctxCd, 0, true⟩ := by
  have h1 := (c4_calldataload gc0 [] mdg0 [1, 2] (by decide) (by norm_num) 1
    (by norm_num) [] ⟨[mk256 1], 5, ctxCd, 0, true⟩ rfl rfl (by decide)).2 (by norm_num)
  have h2 := (c4_calldataload gc0 [] mdg0 [1, 2] (by decide) (by norm_num) 5
    (by norm_num) [] ⟨[mk256 5], 5, ctxCd, 0, true⟩ rfl rfl (by decide)).1 (by norm_num)
  constructor
  · simpa [gc0] using h1
  · simpa [gc0] using h2

/-- Reading a slice that lies inside the original bytes is unaffected by
zero-padding appended behind them. -/
theorem readBytes_append_zeros (mem : List Nat) (off len k : Nat)
    (h : off + len ≤ mem.length) :
    readBytes (mem ++ List.replicate k 0) off len = readBytes mem off len := by
  unfold readBytes
  rw [List.drop_append_of_le_length (by omega),
    List.take_append_of_le_length (by simp [List.length_drop]; omega)]

set_option maxHeartbeats 1000000 in
/-- C7: storing a 32-byte word `w` with MSTORE at `off` and reloading it
with MLOAD at the same offset pushes `w` back: the byte-swap applied on
store is inverted by the byte-swap applied on load, with the big-endian
bytes of `w` in memory in between. The hypotheses are exactly "both
operations pass their guards" (both steps return `ok`) plus the absence
of 32-bit overflow of `off + 32`. -/
theorem c7_mstore_then_mload (gc : Op → Nat) (dests : List Nat)
    (mdg : Nat → Nat → Nat) (w off : Nat) (hw : w < 2 ^ 256)
    (hoff : off + 32 < 2 ^ 32) (rest : List MValue) (st st1 st2 : VMState)
    (hstack : st.stack = mk256 off :: mk256 w :: mk256 off :: rest)
    (h1 : execOp gc dests mdg .Mstore st = .ok st1)
    (h2 : execOp gc dests mdg .Mload st1 = .ok st2) :
    st2.stack = mk256 w :: rest := by
  have hoffv : (mk256 off).val = off := Nat.mod_eq_of_lt (by omega)
  have hwv : (mk256 w).val = w := Nat.mod_eq_of_lt hw
  have e1 : off % 2 ^ 32 = off := Nat.mod_eq_of_lt (by omega)
  have e1n : off % 4294967296 = off := Nat.mod_eq_of_lt (by omega)
  have e2 : (off + 32) % 2 ^ 32 = off + 32 := Nat.mod_eq_of_lt hoff
  have e2n : (off + 32) % 4294967296 = off + 32 := Nat.mod_eq_of_lt (by omega)
  rw [execOp] at h1
  split at h1
  case isFalse => cases h1
  simp only [execBody, hstack, hoffv, hwv, e1, e1n, e2, e2n] at h1
  split at h1
  case h_1 => cases h1
  case h_2 stA hE1 =>
  obtain ⟨⟨k1, hmem1⟩, hreq1, hstkA, _, _, _, _, _, _, _⟩ :=
    extendMemoryHelper_some _ _ _ _ _ hE1
  have hstkA2 : stA.stack = mk256 off :: rest := hstkA
  have hreq2 : off + 32 ≤ stA.ctx.memory.length := hreq1
  injection h1 with h1
  subst h1
  have hwblen : (writeBytes stA.ctx.memory off (natToLeBytes 32 (bswap256 w))).length
      = stA.ctx.memory.length := by
    apply writeBytes_length
    rw [natToLeBytes_length]
    omega
  rw [execOp] at h2
  split at h2
  case isFalse => cases h2
  simp only [execBody, hstkA2, hoffv, e1, e1n, e2, e2n] at h2
  split at h2
  case h_1 => cases h2
  case h_2 stB hE2 =>
  obtain ⟨⟨k2, hmem2⟩, _, hstkB, _, _, _, _, _, _, _⟩ :=
    extendMemoryHelper_some _ _ _ _ _ hE2
  have hstkB2 : stB.stack = rest := hstkB
  have hmem2b : stB.ctx.memory =
      writeBytes stA.ctx.memory off (natToLeBytes 32 (bswap256 w))
        ++ List.replicate k2 0 := hmem2
  have hread : readBytes stB.ctx.memory off 32 = natToLeBytes 32 (bswap256 w) := by
    rw [hmem2b, readBytes_append_zeros _ _ _ _ (by rw [hwblen]; omega)]
    have h32 := readBytes_writeBytes stA.ctx.memory off
      (natToLeBytes 32 (bswap256 w)) (by omega)
    rwa [natToLeBytes_length] at h32
  have hval : bswap256 (leBytesToNat (readBytes stB.ctx.memory off 32)) = w := by
    rw [hread, leBytesToNat_natToLeBytes]
    have hb : bswap256 w % 256 ^ 32 = bswap256 w := by
      apply Nat.mod_eq_of_lt
      have hx := bswap256_lt w
      norm_num at hx ⊢
      omega
    rw [hb, bswap256_bswap256 w hw]
  simp only [StepResult.ok.injEq] at h2
  subst h2
  simp only [hval, hstkB2]

/-- Witness for C7: MSTORE of the word 5 at offset 0 into fresh memory,
then MLOAD at offset 0, pushing 5 back; both executions computed
concretely. -/
theorem c7_witness :
    VMState.stack ⟨[mk256 5], 9, ⟨List.replicate 31 0 ++ [5], none, none, none, [], []⟩, 0, true⟩ = [mk256 5] :=
  c7_mstore_then_mload gc0 [] mdg0 5 0 (by norm_num) (by norm_num) []
    ⟨[mk256 0, mk256 5, mk256 0], 9, ctx0, 0, true⟩
    ⟨[mk256 0], 9, ⟨List.replicate 31 0 ++ [5], none, none, none, [], []⟩, 0, true⟩
    ⟨[mk256 5], 9, ⟨List.replicate 31 0 ++ [5], none, none, none, [], []⟩, 0, true⟩
    rfl (by decide) (by decide)

/-- C6: a `LOG_k` execution that falls through appends exactly one log
record to the host's log list, whose data is `memory[off..off+size]` at
emission time (the memory after expansion, which the in-bounds conjunct
makes a genuine size-byte slice) and whose topics are exactly the popped
`t₁, …, t_k` in pop order. -/
theorem c6_log (gc : Op → Nat) (dests : List Nat) (mdg : Nat → Nat → Nat)
    (k : Nat) (hk : k ≤ 4) (off sz : Nat) (hosz : off + sz < 2 ^ 32)
    (ts : List Nat) (htsl : ts.length = k) (hts : ∀ t ∈ ts, t < 2 ^ 256)
    (rest : List MValue) (st st2 : VMState)
    (hstack : st.stack = mk256 off :: mk256 sz :: (ts.map mk256 ++ rest))
    (h : execOp gc dests mdg (.Log k) st = .ok st2) :
    st2.stack = rest ∧
    st2.ctx.logs = st.ctx.logs ++
      [{ topics := ts.map toU256, data := readBytes st2.ctx.memory off sz }] ∧
    off + sz ≤ st2.ctx.memory.length := by
  have hoffv : (mk256 off).val = off := Nat.mod_eq_of_lt (by omega)
  have hszv : (mk256 sz).val = sz := Nat.mod_eq_of_lt (by omega)
  have eo : off % 2 ^ 32 = off := Nat.mod_eq_of_lt (by omega)
  have eon : off % 4294967296 = off := Nat.mod_eq_of_lt (by omega)
  have es : sz % 2 ^ 32 = sz := Nat.mod_eq_of_lt (by omega)
  have esn : sz % 4294967296 = sz := Nat.mod_eq_of_lt (by omega)
  have eos : (off + sz) % 2 ^ 32 = off + sz := Nat.mod_eq_of_lt hosz
  have eosn : (off + sz) % 4294967296 = off + sz := Nat.mod_eq_of_lt (by omega)
  have hmaplen : (ts.map mk256).length = k := by rw [List.length_map, htsl]
  rw [execOp] at h
  split at h
  case isFalse => cases h
  simp only [execBody, hstack, hoffv, hszv, eo, eon, es, esn, eos, eosn] at h
  split at h
  case h_1 => cases h
  case h_2 stB hE =>
  obtain ⟨⟨kz, hmem⟩, hreq, hstk, _, _, _, hlogs, _, _, _⟩ :=
    extendMemoryHelper_some _ _ _ _ _ hE
  have hstk2 : stB.stack = ts.map mk256 ++ rest := hstk
  have hlogs2 : stB.ctx.logs = st.ctx.logs := hlogs
  have hreq2 : off + sz ≤ stB.ctx.memory.length := hreq
  have htopics : (stB.stack.take k).map (fun t => toU256 t.val) = ts.map toU256 := by
    rw [hstk2, ← hmaplen, List.take_left, List.map_map]
    apply List.map_congr_left
    intro t ht
    have hv : (mk256 t).val = t := Nat.mod_eq_of_lt (hts t ht)
    simp [Function.comp, hv]
  have hdisp : (List.map toU256 ts).length ≤ 4 := by
    rw [List.length_map, htsl]; exact hk
  simp only [StepResult.ok.injEq] at h
  subst h
  refine ⟨?_, ?_, ?_⟩
  · simp only [hstk2, ← hmaplen, List.drop_left]
  · simp only [htopics, appendLogDispatch_eq_createLog _ _ _ _ hdisp]
    simp [SyscallContext.createLog, hlogs2, readBytes]
  · simp only [htopics, appendLogDispatch_eq_createLog _ _ _ _ hdisp]
    simpa [SyscallContext.createLog] using hreq2

/-- The machine state after the witness `LOG1` execution. -/
def c6res : VMState :=
  ⟨[], 17, ⟨[0], none, none, none, [], [⟨[toU256 3], [0]⟩]⟩, 0, true⟩

/-- Witness for C6: `LOG1` with offset 0, size 1, topic 3 on fresh
memory, appending one log with data `[0]` and topic `toU256 3`. -/
theorem c6_witness :
    VMState.stack c6res = [] ∧
    c6res.ctx.logs = ctx0.logs ++
      [{ topics := [3].map toU256, data := readBytes c6res.ctx.memory 0 1 }] ∧
    0 + 1 ≤ c6res.ctx.memory.length :=
  c6_log gc0 [] mdg0 1 (by norm_num) 0 1 (by norm_num) [3] rfl (by decide) []
    ⟨[mk256 0, mk256 1, mk256 3], 400, ctx0, 0, true⟩ c6res rfl (by decide)

/-- C10: for every `ExitStatusCode` `c`, `from_u8 (c.to_u8) = c`, and
`from_u8` is total on u8: every byte other than 0, 1, 2, 3 — including 4
itself — maps to `Default`. -/
theorem c10_from_u8_total_roundtrip :
    (∀ c : ExitStatusCode, ExitStatusCode.fromU8 c.toU8 = c) ∧
    ExitStatusCode.fromU8 4 = .Default ∧
    (∀ v : Nat, v < 256 → v ≠ 0 → v ≠ 1 → v ≠ 2 → v ≠ 3 →
      ExitStatusCode.fromU8 v = .Default) := by
  refine ⟨?_, rfl, ?_⟩
  · intro c; cases c <;> rfl
  · intro v _ h0 h1 h2 h3
    simp [ExitStatusCode.fromU8, ExitStatusCode.toU8, h0, h1, h2, h3]

/-- Witness for C10 at `Error` and at the byte 7. -/
theorem c10_witness :
    ExitStatusCode.fromU8 ExitStatusCode.Error.toU8 = ExitStatusCode.Error ∧
    ExitStatusCode.fromU8 7 = ExitStatusCode.Default :=
  ⟨c10_from_u8_total_roundtrip.1 .Error,
   c10_from_u8_total_roundtrip.2.2 7 (by decide) (by decide) (by decide)
     (by decide) (by decide)⟩

/-- C8: `extend_memory` is a no-op returning the current base pointer when
`new_size` is within the current length; otherwise, on successful
allocation the length becomes exactly `new_size`, the old contents are a
preserved prefix, and every newly added byte is zero; on allocation
failure a null pointer is returned with the memory unchanged. The memory
length never decreases. -/
theorem c8_extend_memory (ctx : SyscallContext) (newSize : Nat) (allocOk : Bool) :
    (newSize ≤ ctx.memory.length →
      ctx.extendMemory newSize allocOk = (true, ctx)) ∧
    (ctx.memory.length < newSize → allocOk = true →
      (ctx.extendMemory newSize allocOk).1 = true ∧
      (ctx.extendMemory newSize allocOk).2.memory.length = newSize ∧
      (ctx.extendMemory newSize allocOk).2.memory.take ctx.memory.length = ctx.memory ∧
      (∀ b ∈ (ctx.extendMemory newSize allocOk).2.memory.drop ctx.memory.length, b = 0)) ∧
    (ctx.memory.length < newSize → allocOk = false →
      ctx.extendMemory newSize allocOk = (false, ctx)) ∧
    ctx.memory.length ≤ (ctx.extendMemory newSize allocOk).2.memory.length := by
  refine ⟨?_, ?_, ?_, ?_⟩
  · intro h; simp [SyscallContext.extendMemory, h]
  · intro h hA
    have hn : ¬ newSize ≤ ctx.memory.length := by omega
    refine ⟨?_, ?_, ?_, ?_⟩
    · simp [SyscallContext.extendMemory, hn, hA]
    · simp only [SyscallContext.extendMemory, if_neg hn, hA, if_true]
      simp [List.length_append, List.length_replicate]
      omega
    · simp only [SyscallContext.extendMemory, if_neg hn, hA, if_true]
      simp [List.take_left]
    · intro b hb
      simp only [SyscallContext.extendMemory, if_neg hn, hA, if_true] at hb
      rw [List.drop_left] at hb
      exact List.eq_of_mem_replicate hb
  · intro h hA
    have hn : ¬ newSize ≤ ctx.memory.length := by omega
    simp [SyscallContext.extendMemory, if_neg hn, hA]
  · by_cases h : newSize ≤ ctx.memory.length
    · simp [SyscallContext.extendMemory, h]
    · cases hA : allocOk <;>
        simp [SyscallContext.extendMemory, if_neg h, hA, List.length_append]

/-- Witness for C8: growing an empty memory to 3 bytes. -/
theorem c8_witness :
    (ctx0.extendMemory 3 true).1 = true ∧
    (ctx0.extendMemory 3 true).2.memory.length = 3 ∧
    (ctx0.extendMemory 3 true).2.memory.take ctx0.memory.length = ctx0.memory ∧
    (∀ b ∈ (ctx0.extendMemory 3 true).2.memory.drop ctx0.memory.length, b = 0) :=
  (c8_extend_memory ctx0 3 true).2.1 (by decide) rfl

/-- C9: `get_result` maps the recorded exit status: `Return` and `Stop`
give `Success`, `Revert` gives `Revert`, in both cases with return data
`memory[offset..offset+len]` for the `(offset, len)` recorded by the most
recent `write_result`; `Error` and `Default` give `Halt`; and a context
on which `write_result` was never called (no recorded status, gas
defaulting to 0) gives `Halt`. -/
theorem c9_get_result (ctx : SyscallContext) (offset len g code : Nat) :
    ((ExitStatusCode.fromU8 code = .Return ∨ ExitStatusCode.fromU8 code = .Stop) →
      (ctx.writeResult offset len g code).getResult =
        .Success ((ctx.memory.drop offset).take len) g ctx.logs) ∧
    (ExitStatusCode.fromU8 code = .Revert →
      (ctx.writeResult offset len g code).getResult =
        .Revert ((ctx.memory.drop offset).take len) g) ∧
    ((ExitStatusCode.fromU8 code = .Error ∨ ExitStatusCode.fromU8 code = .Default) →
      (ctx.writeResult offset len g code).getResult = .Halt) ∧
    (∀ c : SyscallContext, c.exitStatus = none → c.gasRemaining = none →
      c.getResult = .Halt ∧ c.gasRemaining.getD 0 = 0) := by
    refine ⟨?_, ?_, ?_, ?_⟩
    · rintro (h | h) <;>
        simp [SyscallContext.getResult, SyscallContext.writeResult,
          SyscallContext.returnValues, h]
    · intro h
      simp [SyscallContext.getResult, SyscallContext.writeResult,
        SyscallContext.returnValues, h]
    · rintro (h | h) <;>
        simp [SyscallContext.getResult, SyscallContext.writeResult, h]
    · intro c h hg
      simp [SyscallContext.getResult, h, hg]

/-- Witness for C9: a `write_result` with code 0 (`Return`) on a 2-byte
memory, and the fresh context. -/
theorem c9_witness :
    (SyscallContext.writeResult ⟨[7, 9], none, none, none, [], []⟩ 1 1 5 0).getResult =
      .Success [9] 5 [] ∧
    ctx0.getResult = .Halt :=
  ⟨by
    have h := (c9_get_result ⟨[7, 9], none, none, none, [], []⟩ 1 1 5 0).1
      (Or.inl (by decide))
    simpa using h,
   ((c9_get_result ctx0 0 0 0 0).2.2.2 ctx0 rfl rfl).1⟩

end EvmMlir
